import Mathlib

/-!
# Verification of the kptn pipeline execution cache against its specification

This development embeds, in Lean, the parts of the kptn repository that the
verified claims are about:

* the generated AWS Step Functions state machines
  (`src/unnamed/part_018` — the two-lane "basic" machine, and
  `src/unnamed/part_019` — the chained-branch "basic" machine): their
  `Choice` rules, run-state container environments, and trace semantics;
* the SQLite task-state store declared in
  `src/kptn/caching/client/sqlite/schema.md` (tables `tasks`,
  `taskdata_bins`, `subtask_bins` with `ON DELETE CASCADE` foreign keys);
* the large-payload bin partitioning and the version ledger `bump`
  operation (both described in the specification; the Python client code is
  not part of the source tree, so those operations are modelled from the
  specification's contract);
* the UI status renderers (`src/ui/src/components/InputDataStatusRenderer.tsx`
  and the analogous code-status renderer), the zustand `updateTask` store
  action (`src/ui/src/hooks/use-state.tsx`), and the VS Code extension's
  JSON-RPC `BackendClient` pending-request bookkeeping
  (`src/kptn-vscode/src/extension.ts`).
-/

/-! ## A small JavaScript/JSON value domain

Shared by the Step Functions payload model and the UI renderer model.
Only the value shapes that actually flow through the embedded code are
represented: `undefined`, `null`, booleans, integers and strings. -/

/-- A JavaScript/JSON scalar value as it appears in decision payloads and
UI cell values. -/
inductive JsVal : Type
  | undef : JsVal
  | nullv : JsVal
  | boolean : Bool → JsVal
  | num : Int → JsVal
  | str : String → JsVal
  deriving DecidableEq, Repr

namespace JsVal

/-- JavaScript truthiness: `undefined`, `null`, `false`, `0` and `""` are
falsy, everything else in our value domain is truthy. -/
def truthy : JsVal → Bool
  | .undef => false
  | .nullv => false
  | .boolean b => b
  | .num n => n != 0
  | .str s => s != ""

/-- JavaScript strict equality (`===`) on our value domain: values of
different types are never strictly equal; `undefined === undefined` and
`null === null` hold. -/
def strictEq : JsVal → JsVal → Bool
  | .undef, .undef => true
  | .nullv, .nullv => true
  | .boolean a, .boolean b => a == b
  | .num a, .num b => a == b
  | .str a, .str b => a == b
  | _, _ => false

end JsVal

/-! ## Decision payloads

The decider lambda returns a structured decision that the generated
state machines consume at their `Choice` states
(`$.last_decision.Payload`).  Per the orchestration interface, it carries
`should_run : bool`, an optional `execution_mode` string, an optional
integer `array_size`, and a human-readable `reason` string. -/

/-- The decision payload consumed by a generated state machine's `Choice`
states: the fields read through `$.last_decision.Payload.*`. -/
structure DecisionPayload : Type where
  should_run : Bool
  execution_mode : Option String
  array_size : Option Int
  reason : String
  deriving DecidableEq, Repr

/-- The JSONPath fields of `$.last_decision.Payload` that the generated
`Choice` rules reference. -/
inductive PayloadField : Type
  | shouldRunF
  | executionModeF
  | arraySizeF
  deriving DecidableEq, Repr

/-- Look a payload field up as a JSON value; `none` models an absent path. -/
def DecisionPayload.lookup (p : DecisionPayload) : PayloadField → Option JsVal
  | .shouldRunF => some (.boolean p.should_run)
  | .executionModeF => p.execution_mode.map .str
  | .arraySizeF => p.array_size.map .num

/-! ## Choice rules of the generated state machines

The `Choice` states of `src/unnamed/part_018` and `src/unnamed/part_019`
are built from `BooleanEquals`, `StringEquals`, `NumericGreaterThan`,
`IsPresent`, `And`, `Or` and `Not`.  The `And`/`Or` arrays of the JSON are
folded to the right into the binary constructors below.  A comparison
against an absent path evaluates to `false` (the rule then falls through
to the `Default` state). -/

/-- Abstract syntax of the Choice-rule conditions appearing in the
generated state machines. -/
inductive Cond : Type
  | boolEq (f : PayloadField) (b : Bool)
  | strEq (f : PayloadField) (s : String)
  | numGt (f : PayloadField) (n : Int)
  | isPresent (f : PayloadField)
  | andC (c₁ c₂ : Cond)
  | orC (c₁ c₂ : Cond)
  | notC (c : Cond)
  deriving DecidableEq, Repr

/-- Evaluate a Choice-rule condition against a decision payload. -/
def Cond.eval (p : DecisionPayload) : Cond → Bool
  | .boolEq f b => match p.lookup f with
    | some (.boolean x) => x == b
    | _ => false
  | .strEq f s => match p.lookup f with
    | some (.str x) => x == s
    | _ => false
  | .numGt f n => match p.lookup f with
    | some (.num x) => n < x
    | _ => false
  | .isPresent f => (p.lookup f).isSome
  | .andC c₁ c₂ => c₁.eval p && c₂.eval p
  | .orC c₁ c₂ => c₁.eval p || c₂.eval p
  | .notC c => !(c.eval p)

/-- The single-execution mode string the machines test:
`"execution_mode": "ecs"` (the spec's "single" mode). -/
def ecsExecutionMode : String := "ecs"

/-- The array-execution mode string the machines test:
`"execution_mode": "batch_array"` (the spec's "array" mode). -/
def batchArrayExecutionMode : String := "batch_array"

/-- The Choice rule guarding every single-mode (`ecs`) run state in both
machines (states `a_Choice`, `c_Choice`, `list_items_Choice`, `b_Choice`,
`d_Choice` of `part_018` and `a_Choice`, `b_Choice`, `c_Choice`,
`d_Choice` of `part_019`, which repeat this rule verbatim):
`And [should_run == true, Or [execution_mode == "ecs", Not (IsPresent execution_mode)]]`. -/
def ecsChoiceRule : Cond :=
  .andC (.boolEq .shouldRunF true)
    (.orC (.strEq .executionModeF ecsExecutionMode)
      (.notC (.isPresent .executionModeF)))

/-- The Choice rule of `process_item_Choice` in `part_018` (the fan-out
task): `And [should_run == true, execution_mode == "batch_array",
array_size > 0]` (the three-element `And` array folded to the right). -/
def processItemChoiceRule : Cond :=
  .andC (.boolEq .shouldRunF true)
    (.andC (.strEq .executionModeF batchArrayExecutionMode)
      (.numGt .arraySizeF 0))

/-- All Choice rules appearing across the two generated state machines,
one entry per `Choice` state (six in `part_018`, four in `part_019`). -/
def allChoiceRules : List Cond :=
  [ecsChoiceRule, ecsChoiceRule, ecsChoiceRule, ecsChoiceRule,
   processItemChoiceRule, ecsChoiceRule,
   ecsChoiceRule, ecsChoiceRule, ecsChoiceRule, ecsChoiceRule]

/-- Collect the constants of `StringEquals` tests applied to
`$.last_decision.Payload.execution_mode` inside a Choice rule. -/
def Cond.executionModeTests : Cond → List String
  | .strEq .executionModeF s => [s]
  | .strEq _ _ => []
  | .boolEq _ _ => []
  | .numGt _ _ => []
  | .isPresent _ => []
  | .andC c₁ c₂ => c₁.executionModeTests ++ c₂.executionModeTests
  | .orC c₁ c₂ => c₁.executionModeTests ++ c₂.executionModeTests
  | .notC c => c.executionModeTests

/-! ## State names and branch traces of the generated machines -/

/-- The observable (Task / Choice / Pass) states of the two generated
state machines.  The `Parallel` containers (`Lane0Parallel`,
`Lane1Parallel`, `ParallelRoot`) are represented structurally by the
trace semantics below rather than as events. -/
inductive StName : Type
  | a_Decide | a_Choice | a_Skip | a_RunEcs
  | b_Decide | b_Choice | b_Skip | b_RunEcs
  | c_Decide | c_Choice | c_Skip | c_RunEcs
  | list_items_Decide | list_items_Choice | list_items_Skip | list_items_RunEcs
  | process_item_Decide | process_item_Choice | process_item_Skip | process_item_RunBatch
  | d_Decide | d_Choice | d_Skip | d_RunEcs
  deriving DecidableEq, Repr

/-- The state `process_item_Choice` transitions to, given the decision
payload: `process_item_RunBatch` when the (single) rule fires,
otherwise the `Default` state `process_item_Skip`. -/
def process_item_Choice_next (p : DecisionPayload) : StName :=
  if processItemChoiceRule.eval p then .process_item_RunBatch
  else .process_item_Skip

/-- The state an `ecs`-guarded Choice transitions to: the given run state
when the rule fires, otherwise the given `Default` skip state. -/
def ecsChoiceNext (run skp : StName) (p : DecisionPayload) : StName :=
  if ecsChoiceRule.eval p then run else skp

/-- Trace of a single-mode branch `t_Decide → t_Choice → (t_RunEcs | t_Skip)`
in the generated machines, as the list of state events it produces. -/
def ecsBranchTrace (dec cho run skp : StName) (p : DecisionPayload) :
    List StName :=
  [dec, cho, ecsChoiceNext run skp p]

/-- Trace of the `a` branch of `part_018`'s `Lane0Parallel` (also the `a`
segment of `part_019`'s first branch, whose states are identical). -/
def aBranchTrace (p : DecisionPayload) : List StName :=
  ecsBranchTrace .a_Decide .a_Choice .a_RunEcs .a_Skip p

/-- Trace of the `c` branch (`part_018` `Lane0Parallel`, `part_019`
`ParallelRoot`). -/
def cBranchTrace (p : DecisionPayload) : List StName :=
  ecsBranchTrace .c_Decide .c_Choice .c_RunEcs .c_Skip p

/-- Trace of the `list_items` branch of `part_018`'s `Lane0Parallel`. -/
def listItemsBranchTrace (p : DecisionPayload) : List StName :=
  ecsBranchTrace .list_items_Decide .list_items_Choice
    .list_items_RunEcs .list_items_Skip p

/-- Trace of the `b` branch (`part_018` `Lane1Parallel`; also the `b`
segment of `part_019`'s first branch). -/
def bBranchTrace (p : DecisionPayload) : List StName :=
  ecsBranchTrace .b_Decide .b_Choice .b_RunEcs .b_Skip p

/-- Trace of the `process_item` branch of `part_018`'s `Lane1Parallel`
(the array-mapped task). -/
def processItemBranchTrace (p : DecisionPayload) : List StName :=
  [.process_item_Decide, .process_item_Choice, process_item_Choice_next p]

/-- Trace of the top-level `d` chain
`d_Decide → d_Choice → (d_RunEcs | d_Skip)` shared by both machines. -/
def dChainTrace (p : DecisionPayload) : List StName :=
  ecsBranchTrace .d_Decide .d_Choice .d_RunEcs .d_Skip p

/-- Trace of `part_019`'s first `ParallelRoot` branch, which chains task
`a` and then task `b` sequentially (`a_Skip`/`a_RunEcs` both have
`"Next": "b_Decide"`). -/
def abChainTrace (pa pb : DecisionPayload) : List StName :=
  aBranchTrace pa ++ bBranchTrace pb

/-! ## Interleavings and execution traces

A `Parallel` state runs its branches concurrently: the events of the
branches may interleave arbitrarily, but the `Parallel` state ends (and
its `Next` state is entered) only after every branch has run to
completion. -/

/-- Interleaving: `Interleave xs ys zs` says `zs` is an interleaving of `xs` and `ys`
(each preserving its own order). -/
inductive Interleave : List StName → List StName → List StName → Prop
  | nil : Interleave [] [] []
  | left {x xs ys zs} : Interleave xs ys zs → Interleave (x :: xs) ys (x :: zs)
  | right {y xs ys zs} : Interleave xs ys zs → Interleave xs (y :: ys) (y :: zs)

/-- Execution traces of the `part_018` machine: some interleaving of the
three `Lane0Parallel` branches, then (the lane has ended) some
interleaving of the two `Lane1Parallel` branches, then the top-level `d`
chain.  Each task's Choice consumes that task's own decision payload. -/
def IsExec18 (pa pc pli pb ppi pd : DecisionPayload) (tr : List StName) :
    Prop :=
  ∃ l0 l01 l1,
    Interleave (aBranchTrace pa) (cBranchTrace pc) l01 ∧
    Interleave l01 (listItemsBranchTrace pli) l0 ∧
    Interleave (bBranchTrace pb) (processItemBranchTrace ppi) l1 ∧
    tr = l0 ++ l1 ++ dChainTrace pd

/-- Execution traces of the `part_019` machine: some interleaving of the
two `ParallelRoot` branches (the sequential `a`-then-`b` chain, and the
`c` branch), then the top-level `d` chain. -/
def IsExec19 (pa pb pc pd : DecisionPayload) (tr : List StName) : Prop :=
  ∃ l, Interleave (abChainTrace pa pb) (cBranchTrace pc) l ∧
    tr = l ++ dChainTrace pd

/-! ## Run-state container environments

Each run state of the generated machines overrides the container
environment.  Literal entries are copied as-is; `Value.$` entries use
`States.Format('{}', ...)` on a payload field.  `States.Format` with the
template `'{}'` substitutes its argument for the brace pair, so on a
string argument it returns the argument unchanged. -/

/-- Formatting: `States.Format('{}', s)` for a string argument `s`: the template is a
single substitution slot, so the result is `s` itself. -/
def statesFormatSlot (s : String) : String := s

/-- An environment entry value: a literal string (possibly a Terraform
template placeholder), or a `States.Format('{}', ...)` of the decision
reason or of the decision array size. -/
inductive EnvVal : Type
  | lit (s : String)
  | fmtReason
  | fmtArraySize
  deriving DecidableEq, Repr

/-- Resolve an environment entry value against the decision payload that
reached the run state.  An absent `array_size` yields `none` (the real
machine would fail the `States.Format` intrinsic there). -/
def EnvVal.resolve (p : DecisionPayload) : EnvVal → Option String
  | .lit s => some s
  | .fmtReason => some (statesFormatSlot p.reason)
  | .fmtArraySize => p.array_size.map (fun n => statesFormatSlot (toString n))

/-- The container environment of an `ecs:runTask` run state for task
`task` of pipeline `basic`, exactly as generated in both machines
(`a_RunEcs`, `c_RunEcs`, `list_items_RunEcs`, `b_RunEcs`, `d_RunEcs`). -/
def ecsRunEnv (task : String) : List (String × EnvVal) :=
  [("KAPTEN_PIPELINE", .lit "basic"),
   ("KAPTEN_TASK", .lit task),
   ("DYNAMODB_TABLE_NAME", .lit "${dynamodb_table_name}"),
   ("KAPTEN_DECISION_REASON", .fmtReason)]

/-- The container environment of `part_018`'s `process_item_RunBatch`
(`batch:submitJob`) state. -/
def processItemRunBatchEnv : List (String × EnvVal) :=
  [("KAPTEN_PIPELINE", .lit "basic"),
   ("KAPTEN_TASK", .lit "process_item"),
   ("DYNAMODB_TABLE_NAME", .lit "${dynamodb_table_name}"),
   ("ARRAY_SIZE", .fmtArraySize),
   ("KAPTEN_DECISION_REASON", .fmtReason)]

/-- The environments of every run state launched by the two generated
machines: `a`, `c`, `list_items`, `b`, `process_item`, `d` in `part_018`
and `a`, `b`, `c`, `d` in `part_019`. -/
def allRunStateEnvs : List (List (String × EnvVal)) :=
  [ecsRunEnv "a", ecsRunEnv "c", ecsRunEnv "list_items", ecsRunEnv "b",
   processItemRunBatchEnv, ecsRunEnv "d",
   ecsRunEnv "a", ecsRunEnv "b", ecsRunEnv "c", ecsRunEnv "d"]

/-- Resolve the first entry named `name` of an environment against a
payload (environments never repeat a name, so this is the entry's value). -/
def envLookup (env : List (String × EnvVal)) (p : DecisionPayload)
    (name : String) : Option (Option String) :=
  (env.find? (fun e => e.1 == name)).map (fun e => e.2.resolve p)

/-! ## UI cache-status renderers

`src/ui/src/components/InputDataStatusRenderer.tsx` renders the
input-data status cell from `params.value.live_version` /
`params.value.cached_version`; the analogous code-status renderer reads
`params.value.live` / `params.value.cached`.  Both return `null` when
`(!a && !b)` (JavaScript truthiness) and otherwise render a check icon
when `a === b` and an x-mark icon when not. -/

/-- What a status renderer displays: nothing (`null`), the green check
icon, or the red x-mark icon. -/
inductive StatusIcon : Type
  | check
  | xmark
  deriving DecidableEq, Repr

/-- The cell value consumed by `InputDataStatusRenderer`. -/
structure InputDataCell : Type where
  live_version : JsVal
  cached_version : JsVal
  deriving DecidableEq, Repr

/-- The cell value consumed by the code status renderer. -/
structure CodeStatusCell : Type where
  live : JsVal
  cached : JsVal
  deriving DecidableEq, Repr

/-- The renderer `InputDataStatusRenderer`: `null` when
`!value.live_version && !value.cached_version`; otherwise the check icon
when `live_version === cached_version`, else the x-mark icon. -/
def inputDataStatusRender (v : InputDataCell) : Option StatusIcon :=
  if !v.live_version.truthy && !v.cached_version.truthy then none
  else if v.live_version.strictEq v.cached_version then some .check
  else some .xmark

/-- The code status renderer: `null` when `!value.live && !value.cached`;
otherwise the check icon when `live === cached`, else the x-mark icon. -/
def codeStatusRender (v : CodeStatusCell) : Option StatusIcon :=
  if !v.live.truthy && !v.cached.truthy then none
  else if v.live.strictEq v.cached then some .check
  else some .xmark

/-- A value is absent when it is `undefined` or `null`. -/
def JsVal.absent : JsVal → Bool
  | .undef => true
  | .nullv => true
  | _ => false

/-! ## The SQLite task state store

`src/kptn/caching/client/sqlite/schema.md` declares three tables.  Rows
are modelled with the schema's columns; the relational state is the
triple of row lists.  The `taskdata_bins` and `subtask_bins` tables both
declare `FOREIGN KEY(storage_key, pipeline, task_id) REFERENCES
tasks(storage_key, pipeline, task_id) ON DELETE CASCADE`, so deleting a
`tasks` row removes every bin row with the same composite key. -/

/-- The composite key `(storage_key, pipeline, task_id)` shared by all
three tables. -/
structure TaskKey : Type where
  storage_key : String
  pipeline : String
  task_id : String
  deriving DecidableEq, Repr

/-- A row of the `tasks` table (the task record). -/
structure TaskRow : Type where
  key : TaskKey
  code_hashes : Option String
  input_hashes : Option String
  input_data_hashes : Option String
  outputs_version : Option String
  output_data_version : Option String
  status : Option String
  start_time : Option String
  end_time : Option String
  subtask_count : Int
  taskdata_count : Int
  subset_count : Int
  created_at : String
  updated_at : String
  deriving DecidableEq, Repr

/-- A row of the `taskdata_bins` table: `bin_type` distinguishes
`'TASKDATABIN'` from `'SUBSETBIN'`, and `bin_id` is TEXT
(`'0'`, `'1'`, `'2'`, …). -/
structure TaskdataBinRow : Type where
  key : TaskKey
  bin_type : String
  bin_id : String
  data : String
  created_at : String
  updated_at : String
  deriving DecidableEq, Repr

/-- A row of the `subtask_bins` table (`bin_id` is TEXT as well). -/
structure SubtaskBinRow : Type where
  key : TaskKey
  bin_id : String
  data : String
  created_at : String
  updated_at : String
  deriving DecidableEq, Repr

/-- The relational state of the SQLite store. -/
structure SqliteDb : Type where
  tasks : List TaskRow
  taskdata_bins : List TaskdataBinRow
  subtask_bins : List SubtaskBinRow

/-- Modelled from the spec: deleting the task record keyed by
`(storage_key, pipeline, task_id)`.  The client code issuing the SQL
`DELETE` is not part of the source tree; the effect on each table is
exactly the schema's declared semantics — the `tasks` row with that key
is removed, and the `ON DELETE CASCADE` foreign keys of `taskdata_bins`
and `subtask_bins` remove every bin row carrying the same key. -/
def SqliteDb.deleteTask (db : SqliteDb) (k : TaskKey) : SqliteDb where
  tasks := db.tasks.filter (fun r => r.key ≠ k)
  taskdata_bins := db.taskdata_bins.filter (fun r => r.key ≠ k)
  subtask_bins := db.subtask_bins.filter (fun r => r.key ≠ k)

/-! ## Large payloads: bin partitioning and reassembly

The store persists large payloads split into fixed-size bins whose
`bin_id` is TEXT (`'0'`, `'1'`, `'2'`, …, as in the schema).  The client
code is not part of the source tree; `put_large_payload` and
`get_large_payload` are modelled from the spec: `put` partitions the
payload into bins sized under the item-size ceiling and records the bin
count; `get` fetches the bins of the contiguous range `[0..count)` in
`bin_id` numeric order, concatenates them, and fails (`none`, the
`IncompleteBinSetError`) when one is missing. -/

/-- Split a byte list into chunks of `size` bytes (the last chunk may be
shorter).  With `size = 0` each chunk still takes one byte, so the
function is total; the store only ever uses a positive bin size. -/
def chunkPayload (size : Nat) : List Nat → List (List Nat)
  | [] => []
  | x :: xs => (x :: xs.take (size - 1)) :: chunkPayload size (xs.drop (size - 1))
  termination_by l => l.length
  decreasing_by
    simp only [List.length_cons]
    exact Nat.lt_succ_of_le (List.length_drop .. ▸ Nat.sub_le ..)

/-- A stored bin set: `bin_id` TEXT mapped to the bin's bytes. -/
def BinStore : Type := List (String × List Nat)

/-- Modelled from the spec: `put_large_payload` partitions the payload
into bins of `size` bytes, writes them under TEXT bin ids `'0'`, `'1'`,
…, and returns the owning record's new bin count together with the bin
rows. -/
def put_large_payload (size : Nat) (payload : List Nat) : Nat × BinStore :=
  let bins := chunkPayload size payload
  (bins.length, bins.enum.map (fun e => (Nat.repr e.1, e.2)))

/-- Fetch the bin with TEXT id `binId` from a stored bin set. -/
def fetchBin (store : BinStore) (binId : String) : Option (List Nat) :=
  (store.find? (fun e => e.1 == binId)).map (fun e => e.2)

/-- Fetch `n` bins with consecutive numeric TEXT ids
`'i'`, `'i+1'`, …, `'i+n-1'`; `none` as soon as one is missing. -/
def collectBinsFrom (store : BinStore) (i : Nat) : Nat → Option (List (List Nat))
  | 0 => some []
  | n + 1 =>
    match fetchBin store (Nat.repr i) with
    | none => none
    | some b => (collectBinsFrom store (i + 1) n).map (b :: ·)

/-- Modelled from the spec: `get_large_payload` reads the bins
`'0'`, …, `'(count-1)'` in `bin_id` numeric order and concatenates them;
a missing bin in the contiguous range yields `none`
(`IncompleteBinSetError`). -/
def get_large_payload (count : Nat) (store : BinStore) :
    Option (List Nat) :=
  (collectBinsFrom store 0 count).map List.flatten

/-! ## The version ledger's `bump`

Modelled from the spec: `bump` is implemented with the backing store's
atomic conditional-increment primitive, so each call is a single atomic
read-increment-return step.  A concurrent execution of several `bump`
calls against one task key is therefore an arbitrary sequence (one entry
per call, tagged with the calling writer) of atomic increments. -/

/-- Modelled from the spec: one atomic `bump` against a stored version:
increments the counter and returns the new value. -/
def bump (v : Nat) : Nat × Nat := (v + 1, v + 1)

/-- Run a schedule of concurrent `bump` calls (each list entry is the
writer id of one call, in the order the atomic increments landed)
starting from stored version `v0`.  Returns the final stored version and
the `(writer, returned value)` pairs in schedule order. -/
def runBumps (v0 : Nat) : List Nat → Nat × List (Nat × Nat)
  | [] => (v0, [])
  | w :: ws =>
    let r := bump v0
    let rest := runBumps r.1 ws
    (rest.1, (w, r.2) :: rest.2)

/-! ## The UI store's `updateTask` action

`src/ui/src/hooks/use-state.tsx` defines a zustand store whose
`updateTask(partialUpdate)` produces a new state by spreading:
the previous state, with `tasks.tasks` replaced by
`{ ...prev.tasks.tasks, ...Object.fromEntries(partialUpdate.map(u =>
[u.task_name, { ...prev.tasks.tasks[u.task_name], ...u }])) }`.
Records (JS objects used as maps) are modelled extensionally as
functions to `Option`; `Object.fromEntries` keeps the last entry for a
duplicated key, and object spread lets the right operand's present keys
override the left's. -/

/-- A JS object used as a string-keyed map. -/
def JsRecord (α : Type) : Type := String → Option α

/-- Object spread `{ ...a, ...b }`: keys present in `b` override `a`. -/
def JsRecord.spread (a b : JsRecord α) : JsRecord α :=
  fun k => (b k).orElse (fun _ => a k)

/-- The empty object (also the spread of JS `undefined`). -/
def JsRecord.empty : JsRecord α := fun _ => none

/-- A graph of the UI state (`tasks: Record<string, string[]>`). -/
structure UiGraph : Type where
  tasks : JsRecord (List String)

/-- A stack of the UI state. -/
structure UiStack : Type where
  name : String
  prefect_web_url : String
  deriving DecidableEq, Repr

/-- The task configuration (`graphs` and the per-task record map; task
entries are JS objects of arbitrary scalar fields). -/
structure TaskConf : Type where
  graphs : JsRecord UiGraph
  tasks : JsRecord (JsRecord JsVal)

/-- The zustand `AppState`. -/
structure AppState : Type where
  branch : String
  storage_key : Option String
  tasks : TaskConf
  -- `stacks` is written with guillemets because Mathlib reserves the token.
  «stacks» : List UiStack
  stackDict : JsRecord UiStack

/-- A `TaskUpdate` message: the `task_name` property plus the remaining
partial fields of the update object. -/
structure TaskUpdate : Type where
  task_name : String
  fields : JsRecord JsVal

/-- A `TaskUpdate` viewed as the JS object that is spread into the task
entry: its `task_name` property plus its other fields. -/
def TaskUpdate.toObj (u : TaskUpdate) : JsRecord JsVal :=
  fun k => if k = "task_name" then some (.str u.task_name) else u.fields k

/-- Since `Object.fromEntries` keeps the last entry for a duplicated key: the
update that wins for `name` is the last one in the list with that
`task_name`. -/
def lastUpdateFor (updates : List TaskUpdate) (name : String) :
    Option TaskUpdate :=
  updates.reverse.find? (fun u => u.task_name = name)

/-- The `updateTask` action of the zustand store: every other state field
is spread through unchanged, and `tasks.tasks` is the previous map
overridden, for each updated `task_name`, by
`{ ...prev.tasks.tasks[task_name], ...update }` (shallow merge of the
winning update into the previous entry, an absent previous entry
spreading as `{}`). -/
def updateTask (s : AppState) (updates : List TaskUpdate) : AppState :=
  { s with
    tasks :=
      { s.tasks with
        tasks := fun name =>
          match lastUpdateFor updates name with
          | some u =>
            some (JsRecord.spread ((s.tasks.tasks name).getD .empty) u.toObj)
          | none => s.tasks.tasks name } }

/-! ## The VS Code extension's `BackendClient` pending map

`src/kptn-vscode/src/extension.ts` keeps `pending: Map<number,
{resolve, reject}>`.  `sendRequest` allocates `id = nextId++`, inserts
the handlers, and on a synchronous stdin-write failure deletes the entry
and rejects.  `handleStdout` parses each complete line; an unparsable
line or a response whose id has no pending entry settles nothing; a
matching response deletes the entry and rejects (response carries
`error`) or resolves (otherwise).  Backend exit, spawn error and
`dispose()` reject every pending request and clear the map.  The model
tracks, per request id, how often its promise was settled. -/

/-- The environment-visible events that drive the pending map. -/
inductive ClientEv : Type
  | send (writeOk : Bool)
  | response (id : Nat) (isErr : Bool)
  | malformedLine
  | backendExit
  | spawnError
  | dispose
  deriving DecidableEq, Repr

/-- The pending-request bookkeeping state of `BackendClient`:
the id counter, the key set of the `pending` map, the per-id count of
promise settlements (resolve or reject), and the disposed flag. -/
structure ClientState : Type where
  nextId : Nat
  pending : List Nat
  settled : Nat → Nat
  disposed : Bool

/-- The state of a freshly constructed `BackendClient`
(`nextId = 1`, empty pending map). -/
def ClientState.init : ClientState where
  nextId := 1
  pending := []
  settled := fun _ => 0
  disposed := false

/-- Record one settlement (resolve or reject) of request `id`. -/
def settleOne (f : Nat → Nat) (id : Nat) : Nat → Nat :=
  fun j => if j = id then f j + 1 else f j

/-- Settle every currently pending request (the `rejectAllPending` path)
and clear the map. -/
def settleAllPending (s : ClientState) : ClientState :=
  { s with pending := [],
           settled := fun j => if j ∈ s.pending then s.settled j + 1 else s.settled j }

/-- One step of the pending-map state machine. -/
def ClientState.step (s : ClientState) : ClientEv → ClientState
  | .send writeOk =>
    -- After dispose the child is gone and never restarted, so sendRequest
    -- rejects its fresh promise before any pending entry is created.
    if s.disposed then s
    else
      let id := s.nextId
      if writeOk then
        { s with nextId := id + 1, pending := id :: s.pending }
      else
        -- pending.set(id, …) immediately followed by pending.delete(id)
        -- and a reject of the promise in the catch branch.
        { s with nextId := id + 1, settled := settleOne s.settled id }
  | .response id _ =>
    if id ∈ s.pending then
      { s with pending := s.pending.erase id,
               settled := settleOne s.settled id }
    else s
  | .malformedLine => s
  | .backendExit => settleAllPending s
  | .spawnError => settleAllPending s
  | .dispose => { settleAllPending s with disposed := true }

/-- Run the pending-map state machine over a trace of events. -/
def ClientState.run (s : ClientState) : List ClientEv → ClientState
  | [] => s
  | e :: es => (s.step e).run es
/-! ## Auxiliary definitions for the proofs -/

def charDigit (c : Char) : Nat := c.toNat - 48

def digitsVal (l : List Char) : Nat :=
  l.foldl (fun a c => 10 * a + charDigit c) 0

/-- The C8 claim as stated: each status renderer shows nothing exactly
for *absent* (`undefined`/`null`) value pairs and otherwise the
check/x-mark indicator according to strict equality. -/
def rendererAbsentClaim : Prop :=
  ∀ v : InputDataCell,
    (v.live_version.absent = true ∧ v.cached_version.absent = true →
      inputDataStatusRender v = none) ∧
    (¬(v.live_version.absent = true ∧ v.cached_version.absent = true) →
      (inputDataStatusRender v = some .check ↔
        v.live_version.strictEq v.cached_version = true) ∧
      (inputDataStatusRender v = some .xmark ↔
        v.live_version.strictEq v.cached_version = false))

/-- The pending-map invariant of `BackendClient`: pending ids are unique
issued ids; every issued id is either still pending and never settled, or
no longer pending and settled exactly once; unissued ids (and the never
used id `0`) are neither pending nor settled. -/
def PendingInvariant (s : ClientState) : Prop :=
  1 ≤ s.nextId ∧
  s.pending.Nodup ∧
  (∀ id ∈ s.pending, 1 ≤ id ∧ id < s.nextId) ∧
  (∀ id, 1 ≤ id → id < s.nextId →
    (id ∈ s.pending ∧ s.settled id = 0) ∨
    (id ∉ s.pending ∧ s.settled id = 1)) ∧
  (∀ id, s.nextId ≤ id ∨ id = 0 → id ∉ s.pending ∧ s.settled id = 0)

/-- A concrete UI state: task `t1` with one field `x`. -/
def uiWitnessState : AppState where
  branch := "main"
  storage_key := none
  tasks :=
    { graphs := fun _ => none,
      tasks := fun n =>
        if n = "t1" then
          some (fun k => if k = "x" then some (.num 1) else none)
        else none }
  «stacks» := []
  stackDict := fun _ => none

/-- A concrete update: set `status` of task `t1`. -/
def uiWitnessUpdate : TaskUpdate where
  task_name := "t1"
  fields := fun k => if k = "status" then some (.str "running") else none

/-! ## Supporting lemmas -/

lemma toDigitsCore_shift (b : Nat) :
    ∀ (f n : Nat) (l : List Char),
      Nat.toDigitsCore b f n l = Nat.toDigitsCore b f n [] ++ l := by
  intro f
  induction f with
  | zero => intro n l; rfl
  | succ f ih =>
    intro n l
    simp only [Nat.toDigitsCore]
    by_cases h : n / b = 0
    · simp [h]
    · simp only [h, if_false]
      rw [ih (n / b) (Nat.digitChar (n % b) :: l),
          ih (n / b) [Nat.digitChar (n % b)]]
      simp

lemma toDigitsCore_fuel (b : Nat) (hb : 2 ≤ b) :
    ∀ (n : Nat), ∀ (f f' : Nat) (l : List Char), n < f → n < f' →
      Nat.toDigitsCore b f n l = Nat.toDigitsCore b f' n l := by
  intro n
  induction n using Nat.strong_induction_on with
  | _ n ih =>
    intro f f' l hf hf'
    match f, f', hf, hf' with
    | f + 1, f' + 1, hf, hf' =>
      simp only [Nat.toDigitsCore]
      by_cases h : n / b = 0
      · simp [h]
      · simp only [h, if_false]
        have hn : 0 < n := by
          rcases Nat.eq_zero_or_pos n with h0 | h0
          · exact absurd (by simp [h0]) h
          · exact h0
        have hlt : n / b < n := Nat.div_lt_self hn (by omega)
        exact ih (n / b) hlt f f' _ (by omega) (by omega)

lemma digitsVal_append_singleton (xs : List Char) (c : Char) :
    digitsVal (xs ++ [c]) = 10 * digitsVal xs + charDigit c := by
  simp [digitsVal]

lemma charDigit_digitChar (d : Nat) (hd : d < 10) :
    charDigit (Nat.digitChar d) = d := by
  interval_cases d <;> rfl

lemma digitsVal_toDigits (n : Nat) :
    digitsVal (Nat.toDigits 10 n) = n := by
  induction n using Nat.strong_induction_on with
  | _ n ih =>
    show digitsVal (Nat.toDigitsCore 10 (n + 1) n []) = n
    simp only [Nat.toDigitsCore]
    by_cases h : n / 10 = 0
    · simp only [h, if_true]
      have hn : n < 10 := by have := Nat.div_eq_zero_iff (by omega : 0 < 10) |>.mp h; omega
      have : n % 10 = n := Nat.mod_eq_of_lt hn
      simp [digitsVal, this, charDigit_digitChar n hn]
    · simp only [h, if_false]
      have hn : 0 < n := by
        rcases Nat.eq_zero_or_pos n with h0 | h0
        · exact absurd (by simp [h0]) h
        · exact h0
      have hlt : n / 10 < n := Nat.div_lt_self hn (by omega)
      rw [toDigitsCore_shift, toDigitsCore_fuel 10 (by omega) (n / 10) n (n / 10 + 1) [] (by omega) (by omega)]
      rw [digitsVal_append_singleton]
      rw [show Nat.toDigitsCore 10 (n / 10 + 1) (n / 10) [] = Nat.toDigits 10 (n / 10) from rfl]
      rw [ih (n / 10) hlt, charDigit_digitChar _ (Nat.mod_lt n (by omega))]
      omega

lemma natRepr_injective : Function.Injective Nat.repr := by
  intro m n h
  have hd : Nat.toDigits 10 m = Nat.toDigits 10 n := by
    have := congrArg String.data h
    simpa [Nat.repr] using this
  have := congrArg digitsVal hd
  rwa [digitsVal_toDigits, digitsVal_toDigits] at this

lemma fetchBin_enumFrom (bins : List (List Nat)) :
    ∀ (k i : Nat), k ≤ i → i < k + bins.length →
      fetchBin ((List.enumFrom k bins).map (fun e => (Nat.repr e.1, e.2)))
        (Nat.repr i) = some (bins.getD (i - k) []) := by
  induction bins with
  | nil => intro k i h1 h2; simp at h2; omega
  | cons x xs ih =>
    intro k i h1 h2
    by_cases hk : i = k
    · subst hk
      simp [fetchBin, List.enumFrom, List.find?_cons]
    · have hne : (Nat.repr k == Nat.repr i) = false := by
        apply beq_eq_false_iff_ne.mpr
        intro he
        exact hk (natRepr_injective he).symm
      have step := ih (k + 1) i (by omega) (by simp at h2 ⊢; omega)
      simp only [fetchBin, List.enumFrom, List.map, List.find?_cons, hne] at step ⊢
      rw [step]
      congr 1
      have : i - k = (i - (k + 1)) + 1 := by omega
      rw [this, List.getD_cons_succ]

lemma collectBinsFrom_eq (store : BinStore) (bs : List (List Nat)) :
    ∀ (k : Nat),
      (∀ j, j < bs.length → fetchBin store (Nat.repr (k + j)) = some (bs.getD j [])) →
      collectBinsFrom store k bs.length = some bs := by
  induction bs with
  | nil => intro k _; rfl
  | cons b bs ih =>
    intro k h
    have h0 := h 0 (by simp)
    simp only [Nat.add_zero, List.getD_cons_zero] at h0
    have hrest : collectBinsFrom store (k + 1) bs.length = some bs := by
      apply ih
      intro j hj
      have := h (j + 1) (by simp; omega)
      simpa [Nat.add_assoc, Nat.add_comm 1 j] using this
    simp [collectBinsFrom, h0, hrest]

lemma chunkPayload_flatten (size : Nat) (l : List Nat) :
    (chunkPayload size l).flatten = l := by
  have key : ∀ (n : Nat) (l : List Nat), l.length ≤ n →
      (chunkPayload size l).flatten = l := by
    intro n
    induction n with
    | zero =>
      intro l h
      match l with
      | [] => rw [chunkPayload]; rfl
      | x :: xs => simp at h
    | succ n ih =>
      intro l h
      match l with
      | [] => rw [chunkPayload]; rfl
      | x :: xs =>
        rw [chunkPayload]
        rw [List.flatten_cons, ih (xs.drop (size - 1)) (by simp at h ⊢; omega)]
        simp [List.take_append_drop]
  exact key l.length l (Nat.le_refl _)

lemma Interleave.mem_left {xs ys zs : List StName} (h : Interleave xs ys zs)
    {a : StName} (ha : a ∈ xs) : a ∈ zs := by
  induction h with
  | nil => cases ha
  | left _ ih =>
    rcases List.mem_cons.mp ha with rfl | ha'
    · exact List.mem_cons_self _ _
    · exact List.mem_cons_of_mem _ (ih ha')
  | right _ ih => exact List.mem_cons_of_mem _ (ih ha)

lemma Interleave.mem_right {xs ys zs : List StName} (h : Interleave xs ys zs)
    {a : StName} (ha : a ∈ ys) : a ∈ zs := by
  induction h with
  | nil => cases ha
  | left _ ih => exact List.mem_cons_of_mem _ (ih ha)
  | right _ ih =>
    rcases List.mem_cons.mp ha with rfl | ha'
    · exact List.mem_cons_self _ _
    · exact List.mem_cons_of_mem _ (ih ha')

lemma Interleave.mem_split {xs ys zs : List StName} (h : Interleave xs ys zs)
    {a : StName} (ha : a ∈ zs) : a ∈ xs ∨ a ∈ ys := by
  induction h with
  | nil => cases ha
  | left _ ih =>
    rcases List.mem_cons.mp ha with rfl | ha'
    · exact Or.inl (List.mem_cons_self _ _)
    · rcases ih ha' with h' | h'
      · exact Or.inl (List.mem_cons_of_mem _ h')
      · exact Or.inr h'
  | right _ ih =>
    rcases List.mem_cons.mp ha with rfl | ha'
    · exact Or.inr (List.mem_cons_self _ _)
    · rcases ih ha' with h' | h'
      · exact Or.inl h'
      · exact Or.inr (List.mem_cons_of_mem _ h')

lemma interleave_append (xs ys : List StName) : Interleave xs ys (xs ++ ys) := by
  induction xs with
  | nil =>
    simp only [List.nil_append]
    induction ys with
    | nil => exact .nil
    | cons y ys ih => exact .right ih
  | cons x xs ih => exact .left ih

lemma append_cons_split {a : StName} :
    ∀ {xs : List StName} {pre : List StName} {ys post : List StName},
      a ∉ xs → xs ++ ys = pre ++ a :: post →
      ∃ mid, pre = xs ++ mid ∧ ys = mid ++ a :: post := by
  intro xs
  induction xs with
  | nil =>
    intro pre ys post _ he
    exact ⟨pre, rfl, by simpa using he⟩
  | cons x xs ih =>
    intro pre ys post hni he
    match pre, he with
    | [], he =>
      have hx : x = a := by simpa using congrArg (fun l => l.head?) he
      exact absurd (hx ▸ List.mem_cons_self x xs) hni
    | p :: pre', he =>
      have hx : x = p := by simpa using congrArg (fun l => l.head?) he
      subst hx
      have htl : xs ++ ys = pre' ++ a :: post := by
        simpa using congrArg List.tail he
      obtain ⟨mid, h1, h2⟩ :=
        ih (fun hmem => hni (List.mem_cons_of_mem _ hmem)) htl
      exact ⟨mid, by simp [h1], h2⟩

lemma cons_eq_append_cons {a : StName} {rest mid post : List StName}
    (h : a ∉ rest) (he : a :: rest = mid ++ a :: post) :
    mid = [] ∧ post = rest := by
  match mid, he with
  | [], he => exact ⟨rfl, by simpa using he.symm⟩
  | m :: mid', he =>
    have h2 : rest = mid' ++ a :: post := by
      simpa using congrArg List.tail he
    exact absurd (h2 ▸ List.mem_append_right mid' (List.mem_cons_self a post)) h

lemma mem_ecsBranchTrace {dec cho run skp : StName} {p : DecisionPayload}
    {s : StName} (h : s ∈ ecsBranchTrace dec cho run skp p) :
    s = dec ∨ s = cho ∨ s = run ∨ s = skp := by
  unfold ecsBranchTrace ecsChoiceNext at h
  by_cases hc : ecsChoiceRule.eval p <;> simp [hc] at h <;> tauto

lemma mem_processItemBranchTrace {p : DecisionPayload} {s : StName}
    (h : s ∈ processItemBranchTrace p) :
    s = .process_item_Decide ∨ s = .process_item_Choice ∨
      s = .process_item_RunBatch ∨ s = .process_item_Skip := by
  unfold processItemBranchTrace process_item_Choice_next at h
  by_cases hc : processItemChoiceRule.eval p <;> simp [hc] at h <;> tauto

/-! ## Claim theorems -/

lemma processItemRule_eval_iff (p : DecisionPayload) :
    processItemChoiceRule.eval p = true ↔
      p.should_run = true ∧ p.execution_mode = some batchArrayExecutionMode ∧
        ∃ n : Int, p.array_size = some n ∧ 0 < n := by
  unfold processItemChoiceRule
  simp only [Cond.eval, DecisionPayload.lookup]
  cases hm : p.execution_mode <;> cases ha : p.array_size <;>
    simp [Bool.and_eq_true, beq_iff_eq]

/-- Claim C1: For the array-mapped task `process_item` of `part_018`, the
Choice enters `process_item_RunBatch` exactly when `should_run` is true,
`execution_mode` is the array mode `"batch_array"`, and `array_size` is
strictly positive; every other payload — in particular any payload with
`array_size = 0`, whatever `should_run` and the hash-driven fields are —
falls through to the `Default` state `process_item_Skip`, and the branch
then executes no run state. -/
theorem processItem_zero_array_skips (p : DecisionPayload) :
    (process_item_Choice_next p = .process_item_RunBatch ↔
      p.should_run = true ∧ p.execution_mode = some batchArrayExecutionMode ∧
        ∃ n : Int, p.array_size = some n ∧ 0 < n) ∧
    (process_item_Choice_next p ≠ .process_item_RunBatch →
      process_item_Choice_next p = .process_item_Skip) ∧
    (p.array_size = some 0 →
      process_item_Choice_next p = .process_item_Skip ∧
      StName.process_item_RunBatch ∉ processItemBranchTrace p) := by
  unfold process_item_Choice_next
  by_cases hc : processItemChoiceRule.eval p
  · refine ⟨by simp [hc, ← processItemRule_eval_iff], by simp [hc], ?_⟩
    intro h0
    rcases (processItemRule_eval_iff p).mp hc with ⟨_, _, n, hn, hpos⟩
    rw [h0] at hn
    cases hn
    omega
  · refine ⟨?_, by simp [hc], ?_⟩
    · simp only [Bool.not_eq_true] at hc
      simp [hc, ← processItemRule_eval_iff]
    · intro _
      refine ⟨by simp [hc], ?_⟩
      simp only [Bool.not_eq_true] at hc
      simp [processItemBranchTrace, process_item_Choice_next, hc]

/-- Witness for C1: the payload `should_run = true`,
`execution_mode = "batch_array"`, `array_size = 0` takes the Skip branch
and executes nothing. -/
theorem processItem_zero_array_skips_witness :
    process_item_Choice_next ⟨true, some "batch_array", some 0, "zero items"⟩ =
        .process_item_Skip ∧
      StName.process_item_RunBatch ∉
        processItemBranchTrace ⟨true, some "batch_array", some 0, "zero items"⟩ :=
  (processItem_zero_array_skips ⟨true, some "batch_array", some 0, "zero items"⟩).2.2 rfl

/-- Claim C2: Every `StringEquals` test applied to
`$.last_decision.Payload.execution_mode` across the Choice states of both
generated machines compares against one of the two execution-mode
encodings: `"ecs"` (the spec's `single` mode) or `"batch_array"` (the
spec's `array` mode). -/
theorem executionMode_tests_single_or_array :
    ∀ c ∈ allChoiceRules, ∀ s ∈ c.executionModeTests,
      s = ecsExecutionMode ∨ s = batchArrayExecutionMode := by
  decide

/-- Witness for C2: the array-mode test of `process_item_Choice`. -/
theorem executionMode_tests_single_or_array_witness :
    "batch_array" = ecsExecutionMode ∨ "batch_array" = batchArrayExecutionMode :=
  executionMode_tests_single_or_array processItemChoiceRule (by decide)
    "batch_array" (by decide)

/-- Claim C7: Every run state launched by either generated machine receives
`KAPTEN_DECISION_REASON` in its container environment, and its resolved
value is exactly the `reason` field of the decision payload that reached
the run state — unchanged, for both single-mode ECS runs and array-mode
batch runs. -/
theorem decisionReason_propagated (p : DecisionPayload) :
    ∀ env ∈ allRunStateEnvs,
      envLookup env p "KAPTEN_DECISION_REASON" = some (some p.reason) := by
  intro env henv
  simp only [allRunStateEnvs, List.mem_cons, List.mem_singleton,
    List.not_mem_nil, or_false] at henv
  rcases henv with rfl | rfl | rfl | rfl | rfl | rfl | rfl | rfl | rfl | rfl <;> rfl

/-- Witness for C7: the batch run state of `process_item` receives the
decision reason `"deps changed"` unchanged. -/
theorem decisionReason_propagated_witness :
    envLookup processItemRunBatchEnv
        ⟨true, some "batch_array", some 3, "deps changed"⟩
        "KAPTEN_DECISION_REASON" = some (some "deps changed") :=
  decisionReason_propagated ⟨true, some "batch_array", some 3, "deps changed"⟩
    processItemRunBatchEnv (by decide)

/-- Claim C8, counterexample: The claim as stated is false: a cell whose live
and cached versions are both the number `0` is present (not absent) and
equal, so the claim demands the match indicator, but the renderer's
`(!live && !cached)` guard tests JavaScript *truthiness* rather than
presence and renders nothing. -/
theorem rendererAbsentClaim_false : ¬ rendererAbsentClaim := by
  intro h
  have h0 := (h ⟨.num 0, .num 0⟩).2 (by decide)
  exact absurd (h0.1.mpr (by decide)) (by decide)

/-- Claim C8, amended: The status renderers are deterministic pure
functions of the `(live, cached)` pair (they are functions in this
embedding, mutating nothing): each returns nothing exactly when both
values are *falsy* (absent, `0`, empty string or `false`), and otherwise
returns the match indicator exactly when the live value strictly equals
the cached value and the mismatch indicator exactly when it does not. -/
theorem statusRender_characterization (v : InputDataCell) (w : CodeStatusCell) :
    (inputDataStatusRender v = none ↔
      v.live_version.truthy = false ∧ v.cached_version.truthy = false) ∧
    (v.live_version.truthy = true ∨ v.cached_version.truthy = true →
      (inputDataStatusRender v = some .check ↔
        v.live_version.strictEq v.cached_version = true) ∧
      (inputDataStatusRender v = some .xmark ↔
        v.live_version.strictEq v.cached_version = false)) ∧
    (codeStatusRender w = none ↔
      w.live.truthy = false ∧ w.cached.truthy = false) ∧
    (w.live.truthy = true ∨ w.cached.truthy = true →
      (codeStatusRender w = some .check ↔ w.live.strictEq w.cached = true) ∧
      (codeStatusRender w = some .xmark ↔ w.live.strictEq w.cached = false)) := by
  unfold inputDataStatusRender codeStatusRender
  by_cases h1 : v.live_version.truthy <;>
    by_cases h2 : v.cached_version.truthy <;>
      by_cases h3 : v.live_version.strictEq v.cached_version <;>
        by_cases g1 : w.live.truthy <;>
          by_cases g2 : w.cached.truthy <;>
            by_cases g3 : w.live.strictEq w.cached <;>
              simp [h1, h2, h3, g1, g2, g3]

/-- Witness for the amended C8: differing present values render the
x-mark; equal present hashes render the check. -/
theorem statusRender_characterization_witness :
    inputDataStatusRender ⟨.num 0, .num 1⟩ = some .xmark ∧
      codeStatusRender ⟨.str "h1", .str "h1"⟩ = some .check :=
  ⟨((statusRender_characterization ⟨.num 0, .num 1⟩ ⟨.str "h1", .str "h1"⟩).2.1
      (Or.inr rfl)).2.mpr (by decide),
   ((statusRender_characterization ⟨.num 0, .num 1⟩ ⟨.str "h1", .str "h1"⟩).2.2.2
      (Or.inl rfl)).1.mpr (by decide)⟩

/-- Claim C4: Deleting the task record keyed by
`(storage_key, pipeline, task_id)` cascades: afterwards no `tasks`,
`taskdata_bins` or `subtask_bins` row with that key remains, every row of
any other key is untouched, and referential integrity is preserved — if
every bin row had an owning task row before, every surviving bin row
still has its owning task row after, so no bin row survives its owner. -/
theorem deleteTask_cascade (db : SqliteDb) (k : TaskKey) :
    (∀ r ∈ (db.deleteTask k).tasks, r.key ≠ k) ∧
    (∀ b ∈ (db.deleteTask k).taskdata_bins, b.key ≠ k) ∧
    (∀ b ∈ (db.deleteTask k).subtask_bins, b.key ≠ k) ∧
    (∀ r : TaskRow, r.key ≠ k →
      (r ∈ (db.deleteTask k).tasks ↔ r ∈ db.tasks)) ∧
    (∀ b : TaskdataBinRow, b.key ≠ k →
      (b ∈ (db.deleteTask k).taskdata_bins ↔ b ∈ db.taskdata_bins)) ∧
    (∀ b : SubtaskBinRow, b.key ≠ k →
      (b ∈ (db.deleteTask k).subtask_bins ↔ b ∈ db.subtask_bins)) ∧
    ((∀ b ∈ db.taskdata_bins, ∃ r ∈ db.tasks, r.key = b.key) →
      (∀ b ∈ db.subtask_bins, ∃ r ∈ db.tasks, r.key = b.key) →
      (∀ b ∈ (db.deleteTask k).taskdata_bins,
        ∃ r ∈ (db.deleteTask k).tasks, r.key = b.key) ∧
      (∀ b ∈ (db.deleteTask k).subtask_bins,
        ∃ r ∈ (db.deleteTask k).tasks, r.key = b.key)) := by
  refine ⟨?_, ?_, ?_, ?_, ?_, ?_, ?_⟩
  · intro r hr; exact (List.mem_filter.mp hr).2 |> of_decide_eq_true
  · intro b hb; exact (List.mem_filter.mp hb).2 |> of_decide_eq_true
  · intro b hb; exact (List.mem_filter.mp hb).2 |> of_decide_eq_true
  · intro r hr
    simp [SqliteDb.deleteTask, List.mem_filter, hr]
  · intro b hb
    simp [SqliteDb.deleteTask, List.mem_filter, hb]
  · intro b hb
    simp [SqliteDb.deleteTask, List.mem_filter, hb]
  · intro h1 h2
    constructor
    · intro b hb
      obtain ⟨hbm, hbk⟩ := List.mem_filter.mp hb
      obtain ⟨r, hr, hrk⟩ := h1 b hbm
      exact ⟨r, List.mem_filter.mpr ⟨hr, by simpa [hrk] using hbk⟩, hrk⟩
    · intro b hb
      obtain ⟨hbm, hbk⟩ := List.mem_filter.mp hb
      obtain ⟨r, hr, hrk⟩ := h2 b hbm
      exact ⟨r, List.mem_filter.mpr ⟨hr, by simpa [hrk] using hbk⟩, hrk⟩

/-- Witness for C4: in a store with tasks `a` and `b` (each owning one
taskdata bin), deleting task `a` removes no row of task `b`: its bin is
still present afterwards, while every surviving bin's key differs from
the deleted key. -/
theorem deleteTask_cascade_witness :
    (⟨⟨"main", "p", "b"⟩, "TASKDATABIN", "0", "d2", "t0", "t0"⟩ : TaskdataBinRow) ∈
      (SqliteDb.deleteTask
        ⟨[⟨⟨"main", "p", "a"⟩, none, none, none, none, none, none, none, none,
            0, 0, 0, "t0", "t0"⟩,
          ⟨⟨"main", "p", "b"⟩, none, none, none, none, none, none, none, none,
            0, 0, 0, "t0", "t0"⟩],
         [⟨⟨"main", "p", "a"⟩, "TASKDATABIN", "0", "d1", "t0", "t0"⟩,
          ⟨⟨"main", "p", "b"⟩, "TASKDATABIN", "0", "d2", "t0", "t0"⟩], []⟩
        ⟨"main", "p", "a"⟩).taskdata_bins :=
  ((deleteTask_cascade
      ⟨[⟨⟨"main", "p", "a"⟩, none, none, none, none, none, none, none, none,
          0, 0, 0, "t0", "t0"⟩,
        ⟨⟨"main", "p", "b"⟩, none, none, none, none, none, none, none, none,
          0, 0, 0, "t0", "t0"⟩],
        [⟨⟨"main", "p", "a"⟩, "TASKDATABIN", "0", "d1", "t0", "t0"⟩,
         ⟨⟨"main", "p", "b"⟩, "TASKDATABIN", "0", "d2", "t0", "t0"⟩], []⟩
      ⟨"main", "p", "a"⟩).2.2.2.2.1
    ⟨⟨"main", "p", "b"⟩, "TASKDATABIN", "0", "d2", "t0", "t0"⟩
    (by decide)).mpr (by decide)

/-- Claim C5: Bin round-trip: for every payload and every positive bin size
— one bin, an exact bin-boundary multiple, or many bins (including more
than ten, where the TEXT bin ids `'0'…'9','10','11',…` are numerically
but not lexicographically ordered) — writing with `put_large_payload` and
reading back with `get_large_payload`, which reassembles the bins in
`bin_id` numeric order, returns byte-identical content. -/
theorem binRoundTrip (payload : List Nat) (size : Nat) (_hs : 0 < size) :
    get_large_payload (put_large_payload size payload).1
      (put_large_payload size payload).2 = some payload := by
  unfold get_large_payload put_large_payload
  have hstore :
      collectBinsFrom
          ((chunkPayload size payload).enum.map (fun e => (Nat.repr e.1, e.2)))
          0 (chunkPayload size payload).length =
        some (chunkPayload size payload) := by
    apply collectBinsFrom_eq
    intro j hj
    have := fetchBin_enumFrom (chunkPayload size payload) 0 j
      (Nat.zero_le _) (by omega)
    simpa using this
  simpa [hstore] using chunkPayload_flatten size payload

/-- Witness for C5: a 23-byte payload with bin size 2 spans 12 bins
(TEXT ids `'0'` through `'11'`) and round-trips byte-identically. -/
theorem binRoundTrip_witness :
    get_large_payload (put_large_payload 2 (List.range 23)).1
      (put_large_payload 2 (List.range 23)).2 = some (List.range 23) :=
  binRoundTrip (List.range 23) 2 (by decide)

/-- Claim C6: No bump is lost: running any interleaving (schedule) of
concurrent atomic `bump` calls against one task key from stored version
`v0` yields a final version of exactly `v0` plus the number of calls,
returns strictly increasing (hence pairwise distinct) values to the
callers, and every returned value exceeds `v0` and never exceeds the
final version — the version never decreases. -/
theorem bump_no_lost_update (v0 : Nat) (sched : List Nat) :
    (runBumps v0 sched).1 = v0 + sched.length ∧
    ((runBumps v0 sched).2.map Prod.snd).Pairwise (· < ·) ∧
    (∀ r ∈ (runBumps v0 sched).2, v0 < r.2 ∧ r.2 ≤ v0 + sched.length) := by
  induction sched generalizing v0 with
  | nil => exact ⟨rfl, List.Pairwise.nil, by simp [runBumps]⟩
  | cons w ws ih =>
    obtain ⟨ih1, ih2, ih3⟩ := ih (v0 + 1)
    refine ⟨?_, ?_, ?_⟩
    · simp only [runBumps, bump, ih1, List.length_cons]
      omega
    · simp only [runBumps, bump, List.map_cons]
      refine List.Pairwise.cons ?_ ih2
      intro b hb
      obtain ⟨r, hr, hrb⟩ := List.mem_map.mp hb
      have := ih3 r hr
      omega
    · intro r hr
      simp only [runBumps, bump, List.mem_cons] at hr
      rcases hr with rfl | hr
      · simp only [List.length_cons]; omega
      · have := ih3 r hr
        simp only [List.length_cons]
        omega

/-- Claim C9: Frame effect of `updateTask`: a task whose name appears in no
update keeps its previous `tasks.tasks` entry; `branch`, `storage_key`,
`tasks.graphs`, `stacks` and `stackDict` are unchanged; and an updated
task's new entry agrees with its previous entry (an absent entry reading
as the empty object) on every field the winning update does not carry —
the shallow merge retains all other fields. -/
theorem updateTask_frame (s : AppState) (updates : List TaskUpdate)
    (name : String) :
    ((∀ u ∈ updates, u.task_name ≠ name) →
      (updateTask s updates).tasks.tasks name = s.tasks.tasks name) ∧
    (updateTask s updates).branch = s.branch ∧
    (updateTask s updates).storage_key = s.storage_key ∧
    (updateTask s updates).tasks.graphs = s.tasks.graphs ∧
    (updateTask s updates).stacks = s.stacks ∧
    (updateTask s updates).stackDict = s.stackDict ∧
    (∀ u, lastUpdateFor updates name = some u →
      ∃ e, (updateTask s updates).tasks.tasks name = some e ∧
        ∀ k, u.toObj k = none →
          e k = ((s.tasks.tasks name).getD .empty) k) := by
  refine ⟨?_, rfl, rfl, rfl, rfl, rfl, ?_⟩
  · intro h
    have hnone : lastUpdateFor updates name = none := by
      apply List.find?_eq_none.mpr
      intro u hu
      simpa using h u (List.mem_reverse.mp hu)
    simp [updateTask, hnone]
  · intro u hu
    refine ⟨JsRecord.spread ((s.tasks.tasks name).getD .empty) u.toObj, ?_, ?_⟩
    · simp [updateTask, hu]
    · intro k hk
      simp [JsRecord.spread, hk, Option.orElse]

lemma pendingInvariant_init : PendingInvariant ClientState.init := by
  unfold PendingInvariant ClientState.init
  dsimp only
  refine ⟨le_refl 1, List.nodup_nil, ?_, ?_, ?_⟩
  · intro id h; cases h
  · intro id h1 h2; omega
  · intro id _; exact ⟨List.not_mem_nil id, rfl⟩

lemma settleAllPending_invariant {s : ClientState} (h : PendingInvariant s) :
    PendingInvariant (settleAllPending s) := by
  obtain ⟨hnid, hnd, hrange, hiss, hout⟩ := h
  unfold PendingInvariant settleAllPending
  dsimp only
  refine ⟨hnid, List.nodup_nil, ?_, ?_, ?_⟩
  · intro id hid; cases hid
  · intro id h1 h2
    refine Or.inr ⟨List.not_mem_nil id, ?_⟩
    rcases hiss id h1 h2 with ⟨hp, hs⟩ | ⟨hp, hs⟩
    · simp [hp, hs]
    · simp [hp, hs]
  · intro id hid
    have := hout id hid
    exact ⟨List.not_mem_nil id, by simp [this.1, this.2]⟩

lemma pendingInvariant_step {s : ClientState} (e : ClientEv)
    (h : PendingInvariant s) : PendingInvariant (s.step e) := by
  obtain ⟨hnid, hnd, hrange, hiss, hout⟩ := h
  cases e with
  | send writeOk =>
    by_cases hd : s.disposed
    · simpa [ClientState.step, hd] using ⟨hnid, hnd, hrange, hiss, hout⟩
    · simp only [Bool.not_eq_true] at hd
      cases writeOk with
      | true =>
        have hstep : s.step (.send true) =
            { s with nextId := s.nextId + 1, pending := s.nextId :: s.pending } := by
          simp [ClientState.step, hd]
        rw [hstep]
        unfold PendingInvariant
        dsimp only
        refine ⟨by omega, ?_, ?_, ?_, ?_⟩
        · exact List.Nodup.cons
            (fun hmem => by have := hrange _ hmem; omega) hnd
        · intro j hj
          rcases List.mem_cons.mp hj with rfl | hj
          · omega
          · have := hrange j hj; omega
        · intro j h1 h2
          by_cases hi : j = s.nextId
          · subst hi
            exact Or.inl ⟨List.mem_cons_self _ _,
              (hout s.nextId (Or.inl le_rfl)).2⟩
          · rcases hiss j h1 (by omega) with ⟨hp, hs⟩ | ⟨hp, hs⟩
            · exact Or.inl ⟨List.mem_cons_of_mem _ hp, hs⟩
            · refine Or.inr ⟨?_, hs⟩
              intro hmem
              rcases List.mem_cons.mp hmem with h' | h'
              · exact hi h'
              · exact hp h'
        · intro j hj
          have hnext := hout j (by omega)
          refine ⟨?_, hnext.2⟩
          intro hmem
          rcases List.mem_cons.mp hmem with h' | h'
          · omega
          · exact hnext.1 h'
      | false =>
        have hstep : s.step (.send false) =
            { s with nextId := s.nextId + 1,
                     settled := settleOne s.settled s.nextId } := by
          simp [ClientState.step, hd]
        rw [hstep]
        unfold PendingInvariant
        dsimp only
        refine ⟨by omega, hnd, ?_, ?_, ?_⟩
        · intro j hj
          have := hrange j hj; omega
        · intro j h1 h2
          by_cases hi : j = s.nextId
          · subst hi
            refine Or.inr ⟨(hout s.nextId (Or.inl le_rfl)).1, ?_⟩
            simp [settleOne, (hout s.nextId (Or.inl le_rfl)).2]
          · rcases hiss j h1 (by omega) with ⟨hp, hs⟩ | ⟨hp, hs⟩
            · exact Or.inl ⟨hp, by simp [settleOne, hi, hs]⟩
            · exact Or.inr ⟨hp, by simp [settleOne, hi, hs]⟩
        · intro j hj
          have hnext := hout j (by omega)
          refine ⟨hnext.1, ?_⟩
          have hne : j ≠ s.nextId := by omega
          simp [settleOne, hne, hnext.2]
  | response rid isErr =>
    by_cases hp : rid ∈ s.pending
    · have hstep : s.step (.response rid isErr) =
          { s with pending := s.pending.erase rid,
                   settled := settleOne s.settled rid } := by
        simp [ClientState.step, hp]
      rw [hstep]
      have hid1 := hrange rid hp
      have hs0 : s.settled rid = 0 := by
        rcases hiss rid hid1.1 hid1.2 with ⟨_, hs⟩ | ⟨hnp, _⟩
        · exact hs
        · exact absurd hp hnp
      unfold PendingInvariant
      dsimp only
      refine ⟨hnid, hnd.erase rid, ?_, ?_, ?_⟩
      · intro j hj
        exact hrange j (List.mem_of_mem_erase hj)
      · intro j h1 h2
        by_cases hij : j = rid
        · subst hij
          refine Or.inr ⟨?_, by simp [settleOne, hs0]⟩
          intro hmem
          exact absurd (hnd.mem_erase_iff.mp hmem).1 (by simp)
        · rcases hiss j h1 h2 with ⟨hpj, hsj⟩ | ⟨hpj, hsj⟩
          · exact Or.inl ⟨hnd.mem_erase_iff.mpr ⟨hij, hpj⟩,
              by simp [settleOne, hij, hsj]⟩
          · exact Or.inr ⟨fun hmem => hpj (List.mem_of_mem_erase hmem),
              by simp [settleOne, hij, hsj]⟩
      · intro j hj
        have hnp := hout j hj
        refine ⟨fun hmem => hnp.1 (List.mem_of_mem_erase hmem), ?_⟩
        have hne : j ≠ rid := by
          intro he
          subst he
          have := hrange j hp
          rcases hj with hj | hj
          · omega
          · omega
        simp [settleOne, hne, hnp.2]
    · simpa [ClientState.step, hp] using ⟨hnid, hnd, hrange, hiss, hout⟩
  | malformedLine =>
    simpa [ClientState.step] using ⟨hnid, hnd, hrange, hiss, hout⟩
  | backendExit =>
    exact settleAllPending_invariant ⟨hnid, hnd, hrange, hiss, hout⟩
  | spawnError =>
    exact settleAllPending_invariant ⟨hnid, hnd, hrange, hiss, hout⟩
  | dispose =>
    have h' := settleAllPending_invariant (s := s)
      ⟨hnid, hnd, hrange, hiss, hout⟩
    obtain ⟨a, b, c, d, e⟩ := h'
    exact ⟨a, b, c, d, e⟩

lemma pendingInvariant_run (s : ClientState) (evs : List ClientEv)
    (h : PendingInvariant s) : PendingInvariant (s.run evs) := by
  induction evs generalizing s with
  | nil => exact h
  | cons e es ih => exact ih _ (pendingInvariant_step e h)

/-- Claim C10: Along every event trace of `BackendClient` (sends with a
succeeding or failing stdin write, responses with matching, unknown or
malformed ids, backend exit, spawn error, dispose), every request is
settled at most once, and is out of the pending map exactly when it has
been settled: each issued request id is either still pending and settled
zero times, or removed from the pending map and settled exactly once;
ids never issued are neither pending nor settled. -/
theorem pending_requests_settled_once (evs : List ClientEv) :
    (∀ id, (ClientState.init.run evs).settled id ≤ 1) ∧
    (∀ id, 1 ≤ id → id < (ClientState.init.run evs).nextId →
      (id ∈ (ClientState.init.run evs).pending ∧
        (ClientState.init.run evs).settled id = 0) ∨
      (id ∉ (ClientState.init.run evs).pending ∧
        (ClientState.init.run evs).settled id = 1)) ∧
    (∀ id, (ClientState.init.run evs).nextId ≤ id ∨ id = 0 →
      id ∉ (ClientState.init.run evs).pending ∧
      (ClientState.init.run evs).settled id = 0) := by
  obtain ⟨hnid, hnd, hrange, hiss, hout⟩ :=
    pendingInvariant_run ClientState.init evs pendingInvariant_init
  refine ⟨?_, hiss, hout⟩
  intro id
  by_cases h0 : 1 ≤ id
  · by_cases h1 : id < (ClientState.init.run evs).nextId
    · rcases hiss id h0 h1 with ⟨_, hs⟩ | ⟨_, hs⟩ <;> omega
    · have := (hout id (Or.inl (by omega))).2; omega
  · have := (hout id (Or.inr (by omega))).2; omega

/-- Witness for C10: after one successful send and the matching
response, request `1` is out of the pending map and settled exactly
once. -/
theorem pending_requests_settled_once_witness :
    (1 ∈ (ClientState.init.run
        [ClientEv.send true, ClientEv.response 1 false]).pending ∧
      (ClientState.init.run
        [ClientEv.send true, ClientEv.response 1 false]).settled 1 = 0) ∨
    (1 ∉ (ClientState.init.run
        [ClientEv.send true, ClientEv.response 1 false]).pending ∧
      (ClientState.init.run
        [ClientEv.send true, ClientEv.response 1 false]).settled 1 = 1) :=
  (pending_requests_settled_once
      [ClientEv.send true, ClientEv.response 1 false]).2.1 1
    (by decide) (by decide)

/-- Witness for C9: updating `t1` leaves `t2` untouched and keeps the
`x` field of `t1` (absent from the update) at its previous value. -/
theorem updateTask_frame_witness :
    (updateTask uiWitnessState [uiWitnessUpdate]).tasks.tasks "t2" =
      uiWitnessState.tasks.tasks "t2" ∧
    ∃ e, (updateTask uiWitnessState [uiWitnessUpdate]).tasks.tasks "t1" =
        some e ∧
      ∀ k, uiWitnessUpdate.toObj k = none →
        e k = ((uiWitnessState.tasks.tasks "t1").getD .empty) k :=
  ⟨(updateTask_frame uiWitnessState [uiWitnessUpdate] "t2").1
      (by intro u hu; rw [List.mem_singleton] at hu; subst hu; decide),
   (updateTask_frame uiWitnessState [uiWitnessUpdate] "t1").2.2.2.2.2.2
      uiWitnessUpdate (by rfl)⟩

lemma not_mem_ecsBranchTrace {dec cho run skp s : StName} {p : DecisionPayload}
    (h1 : s ≠ dec) (h2 : s ≠ cho) (h3 : s ≠ run) (h4 : s ≠ skp) :
    s ∉ ecsBranchTrace dec cho run skp p := by
  intro hm
  rcases mem_ecsBranchTrace hm with h | h | h | h
  · exact h1 h
  · exact h2 h
  · exact h3 h
  · exact h4 h

lemma not_mem_processItemBranchTrace {s : StName} {p : DecisionPayload}
    (h1 : s ≠ .process_item_Decide) (h2 : s ≠ .process_item_Choice)
    (h3 : s ≠ .process_item_RunBatch) (h4 : s ≠ .process_item_Skip) :
    s ∉ processItemBranchTrace p := by
  intro hm
  rcases mem_processItemBranchTrace hm with h | h | h | h
  · exact h1 h
  · exact h2 h
  · exact h3 h
  · exact h4 h

/-- Claim C3: In every execution trace of the generated state machines, a
downstream task's Decide state occurs strictly after every state of the
preceding parallel block has ended.  In `part_018`: every state event of
the `Lane1Parallel` branches precedes the `d_Decide` event (and nothing
of `Lane1Parallel` follows it), and every state event of the
`Lane0Parallel` branches precedes the `b_Decide` and
`process_item_Decide` events.  In `part_019`: every state event of the
`ParallelRoot` branches precedes the `d_Decide` event. -/
theorem decide_after_upstream_completion :
    (∀ (pa pc pli pb ppi pd : DecisionPayload) (tr : List StName),
      IsExec18 pa pc pli pb ppi pd tr →
      (∀ pre post, tr = pre ++ StName.d_Decide :: post →
        (∀ s, s ∈ bBranchTrace pb ∨ s ∈ processItemBranchTrace ppi →
          s ∈ pre) ∧
        (∀ s ∈ post,
          ¬(s ∈ bBranchTrace pb ∨ s ∈ processItemBranchTrace ppi))) ∧
      (∀ pre post, tr = pre ++ StName.b_Decide :: post →
        ∀ s, s ∈ aBranchTrace pa ∨ s ∈ cBranchTrace pc ∨
            s ∈ listItemsBranchTrace pli → s ∈ pre) ∧
      (∀ pre post, tr = pre ++ StName.process_item_Decide :: post →
        ∀ s, s ∈ aBranchTrace pa ∨ s ∈ cBranchTrace pc ∨
            s ∈ listItemsBranchTrace pli → s ∈ pre)) ∧
    (∀ (pa pb pc pd : DecisionPayload) (tr : List StName),
      IsExec19 pa pb pc pd tr →
      ∀ pre post, tr = pre ++ StName.d_Decide :: post →
        ∀ s, s ∈ abChainTrace pa pb ∨ s ∈ cBranchTrace pc → s ∈ pre) := by
  constructor
  · intro pa pc pli pb ppi pd tr hexec
    obtain ⟨l0, l01, l1, h01, h0, h1, htr⟩ := hexec
    have hl0mem : ∀ s ∈ l0,
        s ∈ aBranchTrace pa ∨ s ∈ cBranchTrace pc ∨
          s ∈ listItemsBranchTrace pli := by
      intro s hs
      rcases h0.mem_split hs with h | h
      · rcases h01.mem_split h with h' | h'
        · exact Or.inl h'
        · exact Or.inr (Or.inl h')
      · exact Or.inr (Or.inr h)
    have hl0sub : ∀ s, s ∈ aBranchTrace pa ∨ s ∈ cBranchTrace pc ∨
        s ∈ listItemsBranchTrace pli → s ∈ l0 := by
      intro s hs
      rcases hs with h | h | h
      · exact h0.mem_left (h01.mem_left h)
      · exact h0.mem_left (h01.mem_right h)
      · exact h0.mem_right h
    have hdD0 : StName.d_Decide ∉ l0 := by
      intro hm
      rcases hl0mem _ hm with h | h | h <;>
        exact not_mem_ecsBranchTrace
          (by decide) (by decide) (by decide) (by decide) h
    have hdD1 : StName.d_Decide ∉ l1 := by
      intro hm
      rcases h1.mem_split hm with h | h
      · exact not_mem_ecsBranchTrace
          (by decide) (by decide) (by decide) (by decide) h
      · exact not_mem_processItemBranchTrace
          (by decide) (by decide) (by decide) (by decide) h
    refine ⟨?_, ?_, ?_⟩
    · intro pre post hsplit
      have hndd : StName.d_Decide ∉ l0 ++ l1 := by
        intro hm
        rcases List.mem_append.mp hm with h | h
        · exact hdD0 h
        · exact hdD1 h
      have heq : (l0 ++ l1) ++ dChainTrace pd =
          pre ++ StName.d_Decide :: post := by
        rw [← htr]
        exact hsplit
      have hdchain : dChainTrace pd =
          StName.d_Decide ::
            [StName.d_Choice, ecsChoiceNext .d_RunEcs .d_Skip pd] := rfl
      rw [hdchain] at heq
      obtain ⟨mid, hpre, hys⟩ := append_cons_split hndd heq
      have hnrest : StName.d_Decide ∉
          [StName.d_Choice, ecsChoiceNext .d_RunEcs .d_Skip pd] := by
        unfold ecsChoiceNext
        by_cases hc : ecsChoiceRule.eval pd <;> simp [hc]
      obtain ⟨hmid, hpost⟩ := cons_eq_append_cons hnrest hys
      subst hmid
      simp only [List.append_nil] at hpre
      subst hpre
      constructor
      · intro s hs
        rcases hs with h | h
        · exact List.mem_append_right l0 (h1.mem_left h)
        · exact List.mem_append_right l0 (h1.mem_right h)
      · intro s hs hcontra
        subst hpost
        have hsd : s = StName.d_Choice ∨
            s = ecsChoiceNext .d_RunEcs .d_Skip pd := by
          simpa using hs
        rcases hcontra with h | h
        · rcases mem_ecsBranchTrace h with rfl | rfl | rfl | rfl <;>
            · revert hsd
              unfold ecsChoiceNext
              by_cases hc : ecsChoiceRule.eval pd <;> simp [hc]
        · rcases mem_processItemBranchTrace h with rfl | rfl | rfl | rfl <;>
            · revert hsd
              unfold ecsChoiceNext
              by_cases hc : ecsChoiceRule.eval pd <;> simp [hc]
    · intro pre post hsplit
      have hb0 : StName.b_Decide ∉ l0 := by
        intro hm
        rcases hl0mem _ hm with h | h | h <;>
          exact not_mem_ecsBranchTrace
            (by decide) (by decide) (by decide) (by decide) h
      have heq : l0 ++ (l1 ++ dChainTrace pd) =
          pre ++ StName.b_Decide :: post := by
        rw [← List.append_assoc, ← htr]
        exact hsplit
      obtain ⟨mid, hpre, _⟩ := append_cons_split hb0 heq
      intro s hs
      rw [hpre]
      exact List.mem_append_left mid (hl0sub s hs)
    · intro pre post hsplit
      have hpi0 : StName.process_item_Decide ∉ l0 := by
        intro hm
        rcases hl0mem _ hm with h | h | h <;>
          exact not_mem_ecsBranchTrace
            (by decide) (by decide) (by decide) (by decide) h
      have heq : l0 ++ (l1 ++ dChainTrace pd) =
          pre ++ StName.process_item_Decide :: post := by
        rw [← List.append_assoc, ← htr]
        exact hsplit
      obtain ⟨mid, hpre, _⟩ := append_cons_split hpi0 heq
      intro s hs
      rw [hpre]
      exact List.mem_append_left mid (hl0sub s hs)
  · intro pa pb pc pd tr hexec pre post hsplit s hs
    obtain ⟨l, hil, htr⟩ := hexec
    have hdD : StName.d_Decide ∉ l := by
      intro hm
      rcases hil.mem_split hm with h | h
      · rcases List.mem_append.mp h with h' | h'
        · exact not_mem_ecsBranchTrace
            (by decide) (by decide) (by decide) (by decide) h'
        · exact not_mem_ecsBranchTrace
            (by decide) (by decide) (by decide) (by decide) h'
      · exact not_mem_ecsBranchTrace
          (by decide) (by decide) (by decide) (by decide) h
    have heq : l ++ dChainTrace pd = pre ++ StName.d_Decide :: post := by
      rw [← htr]
      exact hsplit
    obtain ⟨mid, hpre, _⟩ := append_cons_split hdD heq
    rw [hpre]
    rcases hs with h | h
    · exact List.mem_append_left mid (hil.mem_left h)
    · exact List.mem_append_left mid (hil.mem_right h)

/-- Witness for C3: in the all-skip execution of the `part_019` machine
(decider returns `should_run = false` everywhere), the `a_Skip` event of
the `ParallelRoot` block lies in the prefix preceding `d_Decide`. -/
theorem decide_after_upstream_completion_witness :
    StName.a_Skip ∈
      ([.a_Decide, .a_Choice, .a_Skip, .b_Decide, .b_Choice, .b_Skip,
        .c_Decide, .c_Choice, .c_Skip] : List StName) :=
  decide_after_upstream_completion.2
    ⟨false, some "ecs", none, "cached"⟩ ⟨false, some "ecs", none, "cached"⟩
    ⟨false, some "ecs", none, "cached"⟩ ⟨false, some "ecs", none, "cached"⟩
    [.a_Decide, .a_Choice, .a_Skip, .b_Decide, .b_Choice, .b_Skip,
     .c_Decide, .c_Choice, .c_Skip, .d_Decide, .d_Choice, .d_Skip]
    ⟨abChainTrace ⟨false, some "ecs", none, "cached"⟩
        ⟨false, some "ecs", none, "cached"⟩ ++
        cBranchTrace ⟨false, some "ecs", none, "cached"⟩,
      interleave_append _ _, by decide⟩
    [.a_Decide, .a_Choice, .a_Skip, .b_Decide, .b_Choice, .b_Skip,
     .c_Decide, .c_Choice, .c_Skip]
    [.d_Choice, .d_Skip]
    (by decide)
    .a_Skip
    (Or.inl (by decide))

/-- Witness for C6: with two concurrent bumps from version 0 landing in
schedule order `[writer 1, writer 2]`, writer 1's returned value `1`
exceeds the prior version and is at most the final version. -/
theorem bump_no_lost_update_witness :
    0 < ((1, 1) : Nat × Nat).2 ∧
      ((1, 1) : Nat × Nat).2 ≤ 0 + ([1, 2] : List Nat).length :=
  (bump_no_lost_update 0 [1, 2]).2.2 (1, 1) (by decide)
